import Mathlib

/-!
Shallow embedding of the risk/performance statistics pipeline of
`risk_ranger.py` (functions `get_daily_returns`, `standard_deviation`,
`skewness`, `kurtosis`, `var_historic`, `cvar_historic`,
`var_cornishfisher`, `get_max_drawdown`, `annualize_vol`,
`annualize_rets`, `sharpe_ratio`), and proofs settling the claims about
it.

Modelling conventions:
* a pandas `Series` of prices or percentage returns is a `List ℝ`
  (timestamps are not used by any numeric computation modelled here);
* Python float arithmetic is real arithmetic, except that a division
  whose denominator is zero produces a non-finite IEEE value (NaN or
  ±inf); such non-finite results are modelled by `none` of `Option ℝ`,
  via the helper `fdiv`;
* `scipy.stats.norm.ppf` is an external collaborator and enters
  `var_cornishfisher` as an explicit function parameter `ppf`.
-/

namespace RiskRanger

noncomputable section

/-- Mean of a series: `r.mean()` in pandas, `Σ r / n`. -/
def mean (r : List ℝ) : ℝ := r.sum / r.length

/-- Sum of squared deviations from the mean, the shared numerator of the
pandas `std` computations. -/
def sumSqDev (r : List ℝ) : ℝ := (r.map (fun x => (x - mean r) ^ 2)).sum

/-- pandas `Series.std(ddof)`: square root of `Σ (x-μ)² / (n - ddof)`. -/
def pdStd (ddof : ℕ) (r : List ℝ) : ℝ :=
  Real.sqrt (sumSqDev r / ((r.length : ℝ) - (ddof : ℝ)))

/-- Source `standard_deviation(r)`: `r.std(ddof=0)`, the population
standard deviation. -/
def standard_deviation (r : List ℝ) : ℝ := pdStd 0 r

/-- Float division as performed by the source: `none` models the
non-finite IEEE result (NaN or ±inf) produced when the denominator is
zero; the source has no error handling around its divisions. -/
def fdiv (a b : ℝ) : Option ℝ := if b = 0 then none else some (a / b)

/-- Mean of cubed deviations, `(deviations_returns ** 3).mean()`. -/
def m3 (r : List ℝ) : ℝ := (r.map (fun x => (x - mean r) ^ 3)).sum / r.length

/-- Mean of fourth-power deviations, `(deviations_returns ** 4).mean()`. -/
def m4 (r : List ℝ) : ℝ := (r.map (fun x => (x - mean r) ^ 4)).sum / r.length

/-- Source `skewness(r)`: `(deviations**3).mean() / std(ddof=0)**3`. -/
def skewness (r : List ℝ) : Option ℝ := fdiv (m3 r) (standard_deviation r ^ 3)

/-- Source `kurtosis(r)`: `(deviations**4).mean() / std(ddof=0)**4`,
with no `-3` subtraction. -/
def kurtosis (r : List ℝ) : Option ℝ := fdiv (m4 r) (standard_deviation r ^ 4)

/-- numpy `np.percentile(r, level)` with the default linear-interpolation
method: sort ascending, take the virtual position `level/100 * (n-1)` and
interpolate linearly between the two neighbouring order statistics.
Returns `none` (no finite value / numpy error) for an empty array or a
level outside `[0, 100]`. -/
def percentile (r : List ℝ) (level : ℝ) : Option ℝ :=
  if r = [] ∨ level < 0 ∨ 100 < level then none
  else
    let a := List.insertionSort (· ≤ ·) r
    let pos := level / 100 * ((r.length : ℝ) - 1)
    let i := (⌊pos⌋).toNat
    some (a.getD i 0 + (pos - (i : ℝ)) * (a.getD (i + 1) 0 - a.getD i 0))

/-- Source `var_historic(r, level) = -np.percentile(r, level)`. -/
def var_historic (r : List ℝ) (level : ℝ) : Option ℝ :=
  (percentile r level).map (fun q => -q)

/-- Source `cvar_historic(r, level)`: `is_beyond = r <= -var_historic(r, level)`
followed by `-r[is_beyond].mean()`; the mean of an empty selection is
NaN (`fdiv _ 0 = none`). -/
def cvar_historic (r : List ℝ) (level : ℝ) : Option ℝ :=
  (var_historic r level).bind fun v =>
    (fdiv ((r.filter fun x => decide (x ≤ -v)).sum)
        ((r.filter fun x => decide (x ≤ -v)).length)).map fun m => -m

/-- Source `var_cornishfisher(r, level)` with `scipy.stats.norm.ppf`
passed in as the external collaborator `ppf`; propagates the
non-finiteness of `skewness`/`kurtosis`. -/
def var_cornishfisher (ppf : ℝ → ℝ) (r : List ℝ) (level : ℝ) : Option ℝ :=
  (skewness r).bind fun s =>
    (kurtosis r).map fun k =>
      let z0 := ppf (level / 100)
      let z := (z0 + (z0 ^ 2 - 1) * s / 6 + (z0 ^ 3 - 3 * z0) * (k - 3) / 24 -
        (2 * z0 ^ 3 - 5 * z0) * s ^ 2 / 36);
      -(mean r + z * standard_deviation r)

/-- Running maximum with accumulator `m`, the tail recursion underlying
pandas `cummax`. -/
def cummaxAux (m : ℝ) : List ℝ → List ℝ
  | [] => []
  | x :: xs => max m x :: cummaxAux (max m x) xs

/-- pandas `Series.cummax()`. -/
def cummax : List ℝ → List ℝ
  | [] => []
  | x :: xs => x :: cummaxAux x xs

/-- Wealth index `prices / prices.iloc[0]` from `get_max_drawdown`. -/
def wealth_index (prices : List ℝ) : List ℝ :=
  prices.map (fun p => p / prices.headI)

/-- Drawdown series `(wealth_index - previous_peaks) / previous_peaks`
from `get_max_drawdown`. -/
def drawdowns (prices : List ℝ) : List ℝ :=
  List.zipWith (fun w m => (w - m) / m) (wealth_index prices)
    (cummax (wealth_index prices))

/-- pandas `.min()` of a series: defined only for a non-empty series. -/
def listMin : List ℝ → Option ℝ
  | [] => none
  | x :: xs => some (xs.foldl min x)

/-- Source `get_max_drawdown(prices)`: the scalar `drawdowns.min()`.
The companion `idxmin` date is a timestamp lookup not modelled here; no
claim refers to it. -/
def get_max_drawdown (prices : List ℝ) : Option ℝ :=
  listMin (drawdowns prices)

/-- Source `get_daily_returns(prices)`:
`prices.pct_change().dropna() * 100`. On the data model's domain of
positive prices, `pct_change` is `p[i]/p[i-1] - 1` and `dropna` drops
exactly the first (undefined) entry. -/
def get_daily_returns (prices : List ℝ) : List ℝ :=
  List.zipWith (fun a b => (b / a - 1) * 100) prices prices.tail

/-- Source `annualize_vol(r, periods_per_year) = r.std() * periods_per_year**0.5`.
pandas `Series.std()` defaults to `ddof=1` (sample standard deviation). -/
def annualize_vol (r : List ℝ) (periods_per_year : ℕ) : ℝ :=
  pdStd 1 r * Real.sqrt (periods_per_year : ℝ)

/-- Source `annualize_rets(r, periods_per_year)`:
`((1 + r/100).prod() ** (periods_per_year / n) - 1) * 100`. -/
def annualize_rets (r : List ℝ) (periods_per_year : ℕ) : ℝ :=
  ((r.map (fun x => 1 + x / 100)).prod ^
      ((periods_per_year : ℝ) / (r.length : ℝ)) - 1) * 100

/-- Per-period risk-free rate from `sharpe_ratio`:
`((1 + riskfree_rate/100) ** (1/periods_per_year) - 1) * 100`. -/
def rf_per_period (riskfree_rate : ℝ) (periods_per_year : ℕ) : ℝ :=
  ((1 + riskfree_rate / 100) ^ ((1 : ℝ) / (periods_per_year : ℝ)) - 1) * 100

/-- Source `sharpe_ratio(r, riskfree_rate, periods_per_year)`: annualize
the per-period excess returns and divide by the annualized volatility. -/
def sharpe_ratio (r : List ℝ) (riskfree_rate : ℝ) (periods_per_year : ℕ) :
    Option ℝ :=
  fdiv
    (annualize_rets
      (r.map (fun x => x - rf_per_period riskfree_rate periods_per_year))
      periods_per_year)
    (annualize_vol r periods_per_year)

/-- Raw (Pearson) kurtosis written out independently, following the
spec's words: mean of fourth-power deviations divided by the fourth
power of the population standard deviation (equivalently, the square of
the population variance), with no subtraction of 3. Used to compare the
source `kurtosis` against the spec. -/
def kurtosisSpec (r : List ℝ) : ℝ :=
  ((r.map (fun x => (x - mean r) ^ 4)).sum / r.length) /
    ((r.map (fun x => (x - mean r) ^ 2)).sum / r.length) ^ 2

end

/-! ## Helper lemmas -/

lemma fdiv_of_ne {a b : ℝ} (hb : b ≠ 0) : fdiv a b = some (a / b) := if_neg hb

lemma fdiv_of_eq {a b : ℝ} (hb : b = 0) : fdiv a b = none := if_pos hb

lemma sumSqDev_nonneg (r : List ℝ) : 0 ≤ sumSqDev r := by
  apply List.sum_nonneg
  intro x hx
  obtain ⟨y, -, rfl⟩ := List.mem_map.mp hx
  positivity

lemma standard_deviation_def (r : List ℝ) :
    standard_deviation r = Real.sqrt (sumSqDev r / (r.length : ℝ)) := by
  rw [standard_deviation, pdStd, Nat.cast_zero, sub_zero]

lemma sumSqDev_eq_zero (r : List ℝ) (h : standard_deviation r = 0) :
    sumSqDev r = 0 := by
  rcases eq_or_ne r [] with rfl | hne
  · simp [sumSqDev]
  · have hn : (0 : ℝ) < r.length := by
      exact_mod_cast List.length_pos.mpr hne
    have hle : sumSqDev r / ((r.length : ℝ)) ≤ 0 := by
      rw [standard_deviation_def] at h
      exact Real.sqrt_eq_zero'.mp h
    have hge : 0 ≤ sumSqDev r / (r.length : ℝ) :=
      div_nonneg (sumSqDev_nonneg r) hn.le
    have h2 : sumSqDev r / (r.length : ℝ) = 0 := le_antisymm hle hge
    rcases div_eq_zero_iff.mp h2 with h0 | h0
    · exact h0
    · exact absurd h0 hn.ne'

/-! ## C3: zero-volatility behaviour -/

/-- C3 counterexample: the claim asserts that on a zero-volatility
(constant) series every ratio-based statistic raises a `ZeroVolatility`
error and never yields NaN.  On the constant series `[5, 5]` the code's
`skewness` and `kurtosis` divide by `std = 0` and produce the non-finite
float value (modelled `none`); no error of any kind is raised. -/
theorem zero_volatility_counterexample :
    skewness [5, 5] = none ∧ kurtosis [5, 5] = none := by
  have h : standard_deviation [5, 5] = 0 := by
    norm_num [standard_deviation, pdStd, sumSqDev, mean]
  constructor
  · simp [skewness, fdiv, h]
  · simp [kurtosis, fdiv, h]

/-- C3 (amended): for a return series with zero population standard
deviation, the ratio-based statistics (`skewness`, `kurtosis`,
`var_cornishfisher`, `sharpe_ratio`) all evaluate to the undefined
float value NaN (modelled `none`); the code raises no `ZeroVolatility`
error, having no error handling at all. -/
theorem zero_volatility_nan (ppf : ℝ → ℝ) (r : List ℝ) (level rf : ℝ)
    (p : ℕ) (h : standard_deviation r = 0) :
    skewness r = none ∧ kurtosis r = none ∧
      var_cornishfisher ppf r level = none ∧ sharpe_ratio r rf p = none := by
  have hS : sumSqDev r = 0 := sumSqDev_eq_zero r h
  have hsk : skewness r = none := by simp [skewness, fdiv, h]
  have hku : kurtosis r = none := by simp [kurtosis, fdiv, h]
  refine ⟨hsk, hku, ?_, ?_⟩
  · simp [var_cornishfisher, hsk]
  · have hv : annualize_vol r p = 0 := by
      simp [annualize_vol, pdStd, hS]
    simp [sharpe_ratio, fdiv, hv]

/-- Witness for `zero_volatility_nan` at the constant series `[7, 7, 7]`. -/
theorem zero_volatility_nan_witness :
    skewness [7, 7, 7] = none ∧ kurtosis [7, 7, 7] = none ∧
      var_cornishfisher (fun x => x) [7, 7, 7] 5 = none ∧
      sharpe_ratio [7, 7, 7] 3 252 = none :=
  zero_volatility_nan (fun x => x) [7, 7, 7] 5 3 252
    (by norm_num [standard_deviation, pdStd, sumSqDev, mean])

/-! ## C8: kurtosis is the raw fourth standardized moment -/

/-- C8: for a series with non-zero population standard deviation, the
source `kurtosis` equals the raw (Pearson) fourth standardized moment
`mean((x-mean)^4) / std^4` of the spec, with no subtraction of 3. -/
theorem kurtosis_raw_moment (r : List ℝ) (h : standard_deviation r ≠ 0) :
    kurtosis r = some (kurtosisSpec r) := by
  have hvar : sumSqDev r / (r.length : ℝ) ≠ 0 := by
    intro hc
    exact h (by rw [standard_deviation_def, hc, Real.sqrt_zero])
  have hv0 : 0 ≤ sumSqDev r / (r.length : ℝ) :=
    div_nonneg (sumSqDev_nonneg r) (Nat.cast_nonneg _)
  have hsq : standard_deviation r ^ 2 = sumSqDev r / (r.length : ℝ) := by
    rw [standard_deviation_def]
    exact Real.sq_sqrt hv0
  have hstd4 : standard_deviation r ^ 4 =
      (sumSqDev r / (r.length : ℝ)) ^ 2 := by
    rw [show (4 : ℕ) = 2 * 2 from rfl, pow_mul, hsq]
  have hne : standard_deviation r ^ 4 ≠ 0 := by
    rw [hstd4]
    exact pow_ne_zero 2 hvar
  rw [kurtosis, fdiv_of_ne hne]
  congr 1
  rw [hstd4, m4, kurtosisSpec, sumSqDev]

/-- Witness for `kurtosis_raw_moment` at the series `[0, 1]`. -/
theorem kurtosis_raw_moment_witness :
    standard_deviation [0, 1] ≠ 0 ∧
      kurtosis [0, 1] = some (kurtosisSpec [0, 1]) := by
  have h : standard_deviation [0, 1] ≠ 0 := by
    rw [standard_deviation, pdStd, Real.sqrt_ne_zero']
    norm_num [sumSqDev, mean]
  exact ⟨h, kurtosis_raw_moment [0, 1] h⟩

/-! ## C6: construction of the return series -/

lemma get_daily_returns_cons (x y : ℝ) (rest : List ℝ) :
    get_daily_returns (x :: y :: rest) =
      (y / x - 1) * 100 :: get_daily_returns (y :: rest) := rfl

lemma get_daily_returns_getD :
    ∀ (prices : List ℝ) (i : ℕ), i + 1 < prices.length →
      (get_daily_returns prices).getD i 0 =
        (prices.getD (i + 1) 0 / prices.getD i 0 - 1) * 100
  | [], i, h => by simp at h
  | [x], i, h => by simp at h
  | x :: y :: rest, 0, h => by simp [get_daily_returns_cons]
  | x :: y :: rest, i + 1, h => by
    have ih := get_daily_returns_getD (y :: rest) i (by simpa using h)
    simpa [get_daily_returns_cons] using ih

/-- C6: for a price series of length `n ≥ 2` (positive prices, as the
data model requires), the derived return series has length `n - 1` and
its `i`-th entry is `(price[i+1]/price[i] - 1) * 100`; the first price
contributes no return. -/
theorem return_series_construction (p : List ℝ) (n : ℕ) (hn : p.length = n)
    (h2 : 2 ≤ n) (_hpos : ∀ x ∈ p, 0 < x) :
    (get_daily_returns p).length = n - 1 ∧
      ∀ i : ℕ, i + 1 < n →
        (get_daily_returns p).getD i 0 =
          (p.getD (i + 1) 0 / p.getD i 0 - 1) * 100 := by
  subst hn
  refine ⟨?_, fun i hi => get_daily_returns_getD p i hi⟩
  simp only [get_daily_returns, List.length_zipWith, List.length_tail]
  omega

/-- Witness for `return_series_construction` at the price series
`[100, 110]`. -/
theorem return_series_construction_witness :
    (get_daily_returns [100, 110]).length = 2 - 1 ∧
      ∀ i : ℕ, i + 1 < 2 →
        (get_daily_returns [100, 110]).getD i 0 =
          (List.getD [100, 110] (i + 1) 0 / List.getD [100, 110] i 0 - 1)
            * 100 :=
  return_series_construction [100, 110] 2 (by norm_num) (by norm_num)
    (by intro x hx; simp at hx; rcases hx with rfl | rfl <;> norm_num)

/-! ## C9: empty tail in the historic CVaR -/

/-- C9 counterexample: the claim asserts that an empty CVaR tail is
surfaced as an `EmptyTail` error and never silently produces NaN.  For
the empty return series (whose tail selection is empty) the code's
`cvar_historic` evaluates to the non-finite float value NaN (modelled
`none`); no error is raised. -/
theorem empty_tail_counterexample :
    cvar_historic ([] : List ℝ) 50 = none := by
  simp [cvar_historic, var_historic, percentile]

/-- C9 (amended): whenever no observation falls in the tail selected by
`cvar_historic` (which, given the historic VaR, can only arise for an
empty series, since the minimum return of a non-empty series is always
in the tail), the result is the undefined float value NaN (modelled
`none`); no `EmptyTail` error exists in the code. -/
theorem empty_tail_nan (r : List ℝ) (level : ℝ)
    (h : ∀ v, var_historic r level = some v →
      r.filter (fun x => decide (x ≤ -v)) = []) :
    cvar_historic r level = none := by
  rcases hv : var_historic r level with _ | v
  · simp [cvar_historic, hv]
  · have ht := h v hv
    rw [cvar_historic, hv, Option.some_bind, ht]
    simp [fdiv]

/-- Witness for `empty_tail_nan` at the empty series. -/
theorem empty_tail_nan_witness : cvar_historic ([] : List ℝ) 37 = none :=
  empty_tail_nan [] 37
    (by intro v hv; simp [var_historic, percentile] at hv)

/-! ## C7: drawdowns are non-positive -/

lemma cummaxAux_cons (m x : ℝ) (xs : List ℝ) :
    cummaxAux m (x :: xs) = max m x :: cummaxAux (max m x) xs := rfl

lemma cummax_cons (x : ℝ) (xs : List ℝ) :
    cummax (x :: xs) = x :: cummaxAux x xs := rfl

lemma listMin_cons (x : ℝ) (xs : List ℝ) :
    listMin (x :: xs) = some (xs.foldl min x) := rfl

lemma drawdown_zip_nonpos (w : List ℝ) (m : ℝ) (hm : 0 < m)
    (hw : ∀ x ∈ w, 0 < x) :
    ∀ d ∈ List.zipWith (fun a b => (a - b) / b) w (cummaxAux m w), d ≤ 0 := by
  induction w generalizing m with
  | nil => simp
  | cons x xs ih =>
    intro d hd
    rw [cummaxAux_cons] at hd
    simp only [List.zipWith_cons_cons, List.mem_cons] at hd
    rcases hd with rfl | hd
    · rw [div_nonpos_iff]
      exact Or.inr ⟨sub_nonpos.mpr (le_max_right m x),
        (lt_max_of_lt_left hm).le⟩
    · exact ih (max m x) (lt_max_of_lt_left hm)
        (fun y hy => hw y (List.mem_cons_of_mem _ hy)) d hd

lemma wealth_index_pos (p : List ℝ) (hpos : ∀ x ∈ p, 0 < x) (hne : p ≠ []) :
    ∀ x ∈ wealth_index p, 0 < x := by
  intro x hx
  obtain ⟨y, hy, rfl⟩ := List.mem_map.mp hx
  have hq : 0 < p.headI := by
    rcases p with _ | ⟨q, ps⟩
    · exact absurd rfl hne
    · exact hpos q (by simp)
  exact div_pos (hpos y hy) hq

lemma drawdowns_nonpos (p : List ℝ) (hpos : ∀ x ∈ p, 0 < x) :
    ∀ d ∈ drawdowns p, d ≤ 0 := by
  rcases eq_or_ne p [] with rfl | hne
  · simp [drawdowns, wealth_index]
  · have hw := wealth_index_pos p hpos hne
    rw [drawdowns]
    rcases hwi : wealth_index p with _ | ⟨w0, wrest⟩
    · simp
    · rw [cummax_cons]
      intro d hd
      simp only [List.zipWith_cons_cons, List.mem_cons] at hd
      rcases hd with rfl | hd
      · simp
      · have hw0 : 0 < w0 := hw w0 (by rw [hwi]; simp)
        have hwrest : ∀ x ∈ wrest, 0 < x := fun x hx =>
          hw x (by rw [hwi]; exact List.mem_cons_of_mem _ hx)
        exact drawdown_zip_nonpos wrest w0 hw0 hwrest d hd

lemma foldl_min_nonpos :
    ∀ (xs : List ℝ) (x : ℝ), x ≤ 0 → (∀ y ∈ xs, y ≤ 0) →
      xs.foldl min x ≤ 0 := by
  intro xs
  induction xs with
  | nil => intro x hx _; simpa using hx
  | cons y ys ih =>
    intro x hx hall
    rw [List.foldl_cons]
    exact ih (min x y) (le_trans (min_le_left x y) hx)
      (fun z hz => hall z (List.mem_cons_of_mem _ hz))

lemma listMin_nonpos (l : List ℝ) (hne : l ≠ []) (h : ∀ x ∈ l, x ≤ 0) :
    ∃ mdd, listMin l = some mdd ∧ mdd ≤ 0 := by
  rcases l with _ | ⟨x, xs⟩
  · exact absurd rfl hne
  · exact ⟨xs.foldl min x, rfl,
      foldl_min_nonpos xs x (h x (by simp))
        (fun y hy => h y (List.mem_cons_of_mem _ hy))⟩

lemma cummaxAux_of_le :
    ∀ (l : List ℝ) (m : ℝ), l.Sorted (· ≤ ·) → (∀ x ∈ l, m ≤ x) →
      cummaxAux m l = l := by
  intro l
  induction l with
  | nil => intro m _ _; rfl
  | cons x xs ih =>
    intro m hs hm
    obtain ⟨hx, hxs⟩ := List.sorted_cons.mp hs
    rw [cummaxAux_cons, max_eq_right (hm x (by simp)), ih x hxs hx]

lemma cummax_of_sorted (l : List ℝ) (hs : l.Sorted (· ≤ ·)) :
    cummax l = l := by
  rcases l with _ | ⟨x, xs⟩
  · rfl
  · obtain ⟨hx, hxs⟩ := List.sorted_cons.mp hs
    rw [cummax_cons, cummaxAux_of_le xs x hxs hx]

lemma foldl_min_replicate : ∀ n : ℕ, (List.replicate n (0 : ℝ)).foldl min 0 = 0
  | 0 => rfl
  | n + 1 => by
    rw [List.replicate_succ, List.foldl_cons, min_self]
    exact foldl_min_replicate n

lemma cummaxAux_length (m : ℝ) (l : List ℝ) :
    (cummaxAux m l).length = l.length := by
  induction l generalizing m with
  | nil => rfl
  | cons x xs ih =>
    rw [cummaxAux_cons, List.length_cons, List.length_cons, ih]

lemma cummax_length (l : List ℝ) : (cummax l).length = l.length := by
  rcases l with _ | ⟨x, xs⟩
  · rfl
  · rw [cummax_cons, List.length_cons, List.length_cons, cummaxAux_length]

lemma drawdowns_length (p : List ℝ) : (drawdowns p).length = p.length := by
  rw [drawdowns, List.length_zipWith, cummax_length, min_self,
    wealth_index, List.length_map]

/-- C7: for a price series of strictly positive prices, every entry of
the drawdown series is non-positive (so the maximum drawdown is at most
0), and for a monotonically non-decreasing price series the maximum
drawdown is exactly 0. -/
theorem drawdown_nonpositive (p : List ℝ) (hpos : ∀ x ∈ p, 0 < x) :
    (∀ d ∈ drawdowns p, d ≤ 0) ∧
      (p ≠ [] → ∃ mdd, get_max_drawdown p = some mdd ∧ mdd ≤ 0) ∧
      (p ≠ [] → p.Sorted (· ≤ ·) → get_max_drawdown p = some 0) := by
  refine ⟨drawdowns_nonpos p hpos, ?_, ?_⟩
  · intro hne
    apply listMin_nonpos _ ?_ (drawdowns_nonpos p hpos)
    intro hcon
    apply hne
    apply List.length_eq_zero.mp
    rw [← drawdowns_length p, hcon]
    rfl
  · intro hne hs
    have hq : 0 < p.headI := by
      rcases p with _ | ⟨q, ps⟩
      · exact absurd rfl hne
      · exact hpos q (by simp)
    have hws : (wealth_index p).Sorted (· ≤ ·) := by
      rw [wealth_index]
      exact List.Pairwise.map _
        (fun a b hab => (div_le_div_iff_of_pos_right hq).mpr hab) hs
    rw [get_max_drawdown, drawdowns, cummax_of_sorted _ hws,
      List.zipWith_same]
    have hmap : (wealth_index p).map (fun a => (a - a) / a) =
        (wealth_index p).map (fun _ => (0 : ℝ)) :=
      List.map_congr_left (fun a _ => by rw [sub_self, zero_div])
    rw [hmap, List.map_const', wealth_index, List.length_map]
    have hlen : p.length ≠ 0 :=
      fun hc => hne (List.length_eq_zero.mp hc)
    obtain ⟨k, hk⟩ := Nat.exists_eq_succ_of_ne_zero hlen
    rw [hk, List.replicate_succ, listMin_cons, foldl_min_replicate]

/-! ## C2: which standard deviation annualize_vol uses -/

/-- C2 counterexample: the claim asserts
`annualize_vol(r, p) = population_std(r) * sqrt(p)`.  On `r = [0, 2]`,
`p = 1`, the code gives `sqrt 2` (pandas `Series.std()` defaults to the
sample standard deviation, `ddof=1`), while the population standard
deviation of `standard_deviation` gives `1`. -/
theorem annualize_vol_population_counterexample :
    annualize_vol [0, 2] 1 ≠
      standard_deviation [0, 2] * Real.sqrt ((1 : ℕ) : ℝ) := by
  have hssd : sumSqDev [0, 2] = 2 := by norm_num [sumSqDev, mean]
  have hA : annualize_vol [0, 2] 1 = Real.sqrt 2 := by
    rw [annualize_vol, pdStd, hssd]
    norm_num [Real.sqrt_one]
  have hB : standard_deviation [0, 2] = 1 := by
    rw [standard_deviation_def, hssd]
    norm_num [Real.sqrt_one]
  rw [hA, hB]
  simp only [Real.sqrt_one, Nat.cast_one, one_mul]
  have h1 : (1 : ℝ) < Real.sqrt 2 := by
    rw [show (1 : ℝ) = Real.sqrt 1 from (Real.sqrt_one).symm]
    exact Real.sqrt_lt_sqrt (by norm_num) (by norm_num)
  exact h1.ne'

/-- C2 (amended): `annualize_vol` uses the pandas default sample
standard deviation (denominator `n - 1`), not the population standard
deviation of `standard_deviation`; for `n ≥ 2` it equals the population
standard deviation rescaled by `sqrt (n/(n-1))`, times `sqrt p`. -/
theorem annualize_vol_sample_std (r : List ℝ) (p : ℕ) (h2 : 2 ≤ r.length) :
    annualize_vol r p =
      standard_deviation r *
        Real.sqrt ((r.length : ℝ) / ((r.length : ℝ) - 1)) *
        Real.sqrt (p : ℝ) := by
  have hn : (0 : ℝ) < r.length := by
    have : (2 : ℝ) ≤ r.length := by exact_mod_cast h2
    linarith
  have hn1 : (0 : ℝ) < (r.length : ℝ) - 1 := by
    have : (2 : ℝ) ≤ r.length := by exact_mod_cast h2
    linarith
  rw [annualize_vol, pdStd, Nat.cast_one, standard_deviation_def]
  congr 1
  rw [← Real.sqrt_mul (div_nonneg (sumSqDev_nonneg r) hn.le)]
  congr 1
  field_simp

/-- Witness for `annualize_vol_sample_std` at `r = [0, 2]`, `p = 1`. -/
theorem annualize_vol_sample_std_witness :
    2 ≤ ([0, 2] : List ℝ).length ∧
      annualize_vol [0, 2] 1 =
        standard_deviation [0, 2] *
          Real.sqrt (((([0, 2] : List ℝ).length : ℕ) : ℝ) /
            ((([0, 2] : List ℝ).length : ℝ) - 1)) *
          Real.sqrt ((1 : ℕ) : ℝ) :=
  ⟨by norm_num, annualize_vol_sample_std [0, 2] 1 (by norm_num)⟩

/-! ## C1: the Sharpe ratio identity -/

lemma sumSqDev_tenminus : sumSqDev [10, -10] = 200 := by
  norm_num [sumSqDev, mean]

lemma annualize_vol_eval : annualize_vol [10, -10] 2 = 20 := by
  rw [annualize_vol, pdStd, sumSqDev_tenminus]
  norm_num
  rw [← Real.sqrt_mul (by norm_num : (0 : ℝ) ≤ 200),
    show (200 : ℝ) * 2 = 400 by norm_num,
    show (400 : ℝ) = 20 ^ 2 by norm_num,
    Real.sqrt_sq (by norm_num : (0 : ℝ) ≤ 20)]

lemma rf_per_period_eval : rf_per_period 21 2 = 10 := by
  rw [rf_per_period]
  have hb : (1 : ℝ) + 21 / 100 = (11 / 10 : ℝ) ^ (2 : ℕ) := by norm_num
  have he : (1 : ℝ) / ((2 : ℕ) : ℝ) = (((2 : ℕ) : ℝ))⁻¹ := one_div _
  rw [hb, he, Real.pow_rpow_inv_natCast (by norm_num) (by norm_num)]
  norm_num

lemma excess_map_eval :
    List.map (fun x => x - rf_per_period 21 2) [10, -10] = [0, -20] := by
  rw [rf_per_period_eval]
  norm_num

lemma annualize_rets_excess_eval : annualize_rets [0, -20] 2 = -20 := by
  rw [annualize_rets]
  norm_num [Real.rpow_one]

lemma annualize_rets_eval : annualize_rets [10, -10] 2 = -1 := by
  rw [annualize_rets]
  norm_num [Real.rpow_one]

/-- C1 counterexample: the claim asserts
`sharpe_ratio(r, rf, p) = (annualize_rets(r, p) - rf) / annualize_vol(r, p)`.
At `r = [10, -10]`, `rf = 21`, `p = 2` the code returns
`-20/20 = -1` (it compounds per-period excess returns), while the
claimed formula gives `(-1 - 21)/20 = -11/10`. -/
theorem sharpe_consistency_counterexample :
    sharpe_ratio [10, -10] 21 2 ≠
      some ((annualize_rets [10, -10] 2 - 21) / annualize_vol [10, -10] 2) := by
  rw [annualize_rets_eval]
  simp only [sharpe_ratio, excess_map_eval, annualize_rets_excess_eval,
    annualize_vol_eval]
  rw [fdiv_of_ne (by norm_num : (20 : ℝ) ≠ 0)]
  simp only [ne_eq, Option.some.injEq]
  norm_num

/-- C1 (amended): `sharpe_ratio` equals the annualization of the
per-period excess returns (`r - rf_per_period`) divided by the
annualized volatility; the identity claimed by the spec holds in the
special case `rf = 0`, but not for a general risk-free rate (see the
counterexample). -/
theorem sharpe_ratio_excess_formula (r : List ℝ) (rf : ℝ) (p : ℕ)
    (hvol : annualize_vol r p ≠ 0) :
    sharpe_ratio r rf p =
      some (annualize_rets (r.map (fun x => x - rf_per_period rf p)) p /
        annualize_vol r p) ∧
      sharpe_ratio r 0 p =
        some ((annualize_rets r p - 0) / annualize_vol r p) := by
  constructor
  · rw [sharpe_ratio, fdiv_of_ne hvol]
  · have h0 : rf_per_period 0 p = 0 := by
      simp [rf_per_period, Real.one_rpow]
    rw [sharpe_ratio, h0]
    simp only [sub_zero, List.map_id']
    rw [fdiv_of_ne hvol]

/-- Witness for `sharpe_ratio_excess_formula` at `r = [10, -10]`,
`rf = 21`, `p = 2`. -/
theorem sharpe_ratio_excess_formula_witness :
    annualize_vol [10, -10] 2 ≠ 0 ∧
      sharpe_ratio [10, -10] 21 2 =
        some (annualize_rets
          (List.map (fun x => x - rf_per_period 21 2) [10, -10]) 2 /
          annualize_vol [10, -10] 2) ∧
      sharpe_ratio [10, -10] 0 2 =
        some ((annualize_rets [10, -10] 2 - 0) / annualize_vol [10, -10] 2) := by
  have h : annualize_vol [10, -10] 2 ≠ 0 := by
    rw [annualize_vol_eval]
    norm_num
  obtain ⟨h1, h2⟩ := sharpe_ratio_excess_formula [10, -10] 21 2 h
  exact ⟨h, h1, h2⟩

/-! ## C5: Cornish-Fisher reduces to the Gaussian VaR -/

/-- C5: when the sample skewness is 0 and the raw kurtosis is 3, every
correction term of the Cornish-Fisher expansion vanishes and
`var_cornishfisher` equals the Gaussian VaR
`-(mean + z0 * std)` with `z0 = ppf(level/100)`. -/
theorem cornish_fisher_gaussian_reduction (ppf : ℝ → ℝ) (r : List ℝ)
    (level : ℝ) (hs : skewness r = some 0) (hk : kurtosis r = some 3) :
    var_cornishfisher ppf r level =
      some (-(mean r + ppf (level / 100) * standard_deviation r)) := by
  rw [var_cornishfisher, hs, Option.some_bind, hk, Option.map_some']
  congr 1
  dsimp only
  ring

lemma skewness_sym : skewness [-1, 0, 0, 0, 0, 1] = some 0 := by
  have hssd : sumSqDev [-1, 0, 0, 0, 0, 1] = 2 := by
    norm_num [sumSqDev, mean]
  have hstd : standard_deviation [-1, 0, 0, 0, 0, 1] = Real.sqrt (1 / 3) := by
    rw [standard_deviation_def, hssd]
    norm_num
  have h3 : standard_deviation [-1, 0, 0, 0, 0, 1] ^ 3 ≠ 0 := by
    rw [hstd]
    exact pow_ne_zero 3 (Real.sqrt_pos.mpr (by norm_num)).ne'
  rw [skewness, fdiv_of_ne h3]
  have hm3 : m3 [-1, 0, 0, 0, 0, 1] = 0 := by norm_num [m3, mean]
  rw [hm3, zero_div]

lemma kurtosis_sym : kurtosis [-1, 0, 0, 0, 0, 1] = some 3 := by
  have hssd : sumSqDev [-1, 0, 0, 0, 0, 1] = 2 := by
    norm_num [sumSqDev, mean]
  have hstd : standard_deviation [-1, 0, 0, 0, 0, 1] = Real.sqrt (1 / 3) := by
    rw [standard_deviation_def, hssd]
    norm_num
  have hv : standard_deviation [-1, 0, 0, 0, 0, 1] ^ 4 = 1 / 9 := by
    rw [hstd, show (4 : ℕ) = 2 * 2 from rfl, pow_mul,
      Real.sq_sqrt (by norm_num : (0 : ℝ) ≤ 1 / 3)]
    norm_num
  rw [kurtosis, fdiv_of_ne (by rw [hv]; norm_num)]
  have hm4 : m4 [-1, 0, 0, 0, 0, 1] = 1 / 3 := by norm_num [m4, mean]
  rw [hm4, hv]
  norm_num

/-- Witness for `cornish_fisher_gaussian_reduction` at the series
`[-1, 0, 0, 0, 0, 1]` (skewness 0, raw kurtosis exactly 3), with the
identity `ppf` and tail level 4. -/
theorem cornish_fisher_gaussian_reduction_witness :
    skewness [-1, 0, 0, 0, 0, 1] = some 0 ∧
      kurtosis [-1, 0, 0, 0, 0, 1] = some 3 ∧
      var_cornishfisher (fun x => x) [-1, 0, 0, 0, 0, 1] 4 =
        some (-(mean [-1, 0, 0, 0, 0, 1] +
          4 / 100 * standard_deviation [-1, 0, 0, 0, 0, 1])) := by
  refine ⟨skewness_sym, kurtosis_sym, ?_⟩
  have := cornish_fisher_gaussian_reduction (fun x => x) [-1, 0, 0, 0, 0, 1]
    4 skewness_sym kurtosis_sym
  simpa using this

/-! ## C4 and C10: historic VaR / CVaR tail properties -/

lemma getD_eq_get (l : List ℝ) (i : ℕ) (h : i < l.length) :
    l.getD i 0 = l.get ⟨i, h⟩ := by
  rw [List.getD_eq_getElem?_getD, List.getElem?_eq_getElem h]
  rfl

lemma getD_mem (l : List ℝ) (i : ℕ) (h : i < l.length) : l.getD i 0 ∈ l := by
  rw [getD_eq_get l i h]
  exact List.get_mem l i h

lemma sorted_getD_mono (l : List ℝ) (hs : l.Sorted (· ≤ ·)) (i j : ℕ)
    (hij : i ≤ j) (hj : j < l.length) : l.getD i 0 ≤ l.getD j 0 := by
  have hi : i < l.length := lt_of_le_of_lt hij hj
  rw [getD_eq_get l i hi, getD_eq_get l j hj]
  exact hs.rel_get_of_le (Fin.mk_le_mk.mpr hij)

lemma interp_between (a : List ℝ) (hsort : a.Sorted (· ≤ ·)) (i : ℕ) (f : ℝ)
    (hi : i < a.length) (hf0 : 0 ≤ f) (hf1 : f ≤ 1)
    (hftop : i + 1 = a.length → f = 0) :
    a.getD 0 0 ≤ a.getD i 0 + f * (a.getD (i + 1) 0 - a.getD i 0) ∧
      a.getD i 0 + f * (a.getD (i + 1) 0 - a.getD i 0) ≤
        a.getD (a.length - 1) 0 := by
  have hlow : a.getD 0 0 ≤ a.getD i 0 :=
    sorted_getD_mono a hsort 0 i (by omega) hi
  by_cases hcase : i + 1 < a.length
  · have hadj : a.getD i 0 ≤ a.getD (i + 1) 0 :=
      sorted_getD_mono a hsort i (i + 1) (by omega) hcase
    have hhigh : a.getD (i + 1) 0 ≤ a.getD (a.length - 1) 0 :=
      sorted_getD_mono a hsort (i + 1) (a.length - 1) (by omega) (by omega)
    have hfd : f * (a.getD (i + 1) 0 - a.getD i 0) ≤
        a.getD (i + 1) 0 - a.getD i 0 :=
      mul_le_of_le_one_left (sub_nonneg.mpr hadj) hf1
    have hfd0 : 0 ≤ f * (a.getD (i + 1) 0 - a.getD i 0) :=
      mul_nonneg hf0 (sub_nonneg.mpr hadj)
    constructor
    · linarith
    · linarith
  · have hieq : i + 1 = a.length := by omega
    rw [hftop hieq, zero_mul, add_zero]
    have : a.length - 1 = i := by omega
    rw [this]
    exact ⟨hlow, le_refl _⟩

lemma percentile_between (r : List ℝ) (level : ℝ) (hne : r ≠ [])
    (h0 : 0 ≤ level) (h1 : level ≤ 100) :
    ∃ q, percentile r level = some q ∧
      (∃ x ∈ r, x ≤ q) ∧ (∃ y ∈ r, q ≤ y) := by
  have hcond : ¬(r = [] ∨ level < 0 ∨ 100 < level) := by
    push_neg
    exact ⟨hne, h0, h1⟩
  simp only [percentile]
  rw [if_neg hcond]
  refine ⟨_, rfl, ?_⟩
  set a := List.insertionSort (fun x1 x2 => x1 ≤ x2) r with ha
  set pos := level / 100 * ((r.length : ℝ) - 1) with hposd
  set i := ⌊pos⌋.toNat with hid
  have hperm : a.Perm r := List.perm_insertionSort _ r
  have hsort : a.Sorted (· ≤ ·) := List.sorted_insertionSort _ r
  have hlen : a.length = r.length := hperm.length_eq
  have hnr : 0 < r.length := List.length_pos.mpr hne
  have h1n : (1 : ℝ) ≤ (r.length : ℝ) := by exact_mod_cast hnr
  have hpos0 : 0 ≤ pos := by
    rw [hposd]
    apply mul_nonneg (div_nonneg h0 (by norm_num))
    linarith
  have hposle : pos ≤ (r.length : ℝ) - 1 := by
    rw [hposd]
    have hle1 : level / 100 ≤ 1 := (div_le_one (by norm_num)).mpr h1
    have h1' : (0 : ℝ) ≤ (r.length : ℝ) - 1 := by linarith
    nlinarith
  have hfl0 : 0 ≤ ⌊pos⌋ := Int.floor_nonneg.mpr hpos0
  have hic : (i : ℝ) = ((⌊pos⌋ : ℤ) : ℝ) := by
    rw [hid]
    exact_mod_cast Int.toNat_of_nonneg hfl0
  have hi_le : (i : ℝ) ≤ pos := by
    rw [hic]
    exact Int.floor_le pos
  have hi_lt1 : pos < (i : ℝ) + 1 := by
    rw [hic]
    exact Int.lt_floor_add_one pos
  have hi_lt_n : i < a.length := by
    rw [hlen]
    have : (i : ℝ) < (r.length : ℝ) := by linarith
    exact_mod_cast this
  have hf0 : 0 ≤ pos - (i : ℝ) := by linarith
  have hf1 : pos - (i : ℝ) ≤ 1 := by linarith
  have hftop : i + 1 = a.length → pos - (i : ℝ) = 0 := by
    intro htop
    have hin : i + 1 = r.length := by rw [← hlen]; exact htop
    have hir : ((i : ℕ) : ℝ) + 1 = (r.length : ℝ) := by exact_mod_cast hin
    linarith [hposle]
  obtain ⟨hb_low, hb_high⟩ :=
    interp_between a hsort i (pos - (i : ℝ)) hi_lt_n hf0 hf1 hftop
  have h0len : 0 < a.length := by rw [hlen]; exact hnr
  constructor
  · exact ⟨a.getD 0 0, hperm.subset (getD_mem a 0 h0len), hb_low⟩
  · exact ⟨a.getD (a.length - 1) 0,
      hperm.subset (getD_mem a (a.length - 1) (by omega)), hb_high⟩

/-- C10: for a non-empty return series and a tail level in `[0, 100]`,
the interpolated percentile used by `var_historic` lies between the
minimum and maximum of the series, so the minimum return always belongs
to the tail selected by `cvar_historic`; hence the tail is non-empty
and `cvar_historic` produces a defined value (the NaN branch is
unreachable). -/
theorem cvar_tail_nonempty (r : List ℝ) (level : ℝ) (hne : r ≠ [])
    (h0 : 0 ≤ level) (h1 : level ≤ 100) :
    ∃ q, percentile r level = some q ∧ (∃ x ∈ r, x ≤ q) ∧
      (∃ y ∈ r, q ≤ y) ∧ ∃ c, cvar_historic r level = some c := by
  obtain ⟨q, hq, ⟨x, hxr, hxq⟩, hy⟩ := percentile_between r level hne h0 h1
  refine ⟨q, hq, ⟨x, hxr, hxq⟩, hy, ?_⟩
  rw [cvar_historic, var_historic, hq, Option.map_some', Option.some_bind]
  have hxt : x ∈ r.filter (fun z => decide (z ≤ -(-q))) := by
    rw [List.mem_filter]
    exact ⟨hxr, decide_eq_true (by rwa [neg_neg])⟩
  have hlenR : (((r.filter (fun z => decide (z ≤ -(-q)))).length : ℕ) : ℝ) ≠ 0 := by
    intro hzero
    have : (r.filter (fun z => decide (z ≤ -(-q)))).length = 0 := by
      exact_mod_cast hzero
    rw [List.length_eq_zero] at this
    rw [this] at hxt
    exact List.not_mem_nil x hxt
  rw [fdiv_of_ne hlenR, Option.map_some']
  exact ⟨_, rfl⟩

/-- Witness for `cvar_tail_nonempty` at `r = [1]`, `level = 0`. -/
theorem cvar_tail_nonempty_witness :
    ∃ q, percentile [1] 0 = some q ∧ (∃ x ∈ ([1] : List ℝ), x ≤ q) ∧
      (∃ y ∈ ([1] : List ℝ), q ≤ y) ∧ ∃ c, cvar_historic [1] 0 = some c :=
  cvar_tail_nonempty [1] 0 (by simp) (by norm_num) (by norm_num)

/-- C4: whenever both the historic VaR and the historic CVaR are
defined (in particular the tail is non-empty), the CVaR dominates the
VaR: the mean tail loss is at least the threshold loss. -/
theorem cvar_dominates_var (r : List ℝ) (level : ℝ) (v c : ℝ)
    (hv : var_historic r level = some v)
    (hc : cvar_historic r level = some c) :
    v ≤ c := by
  rw [cvar_historic, hv, Option.some_bind] at hc
  rcases hfd : fdiv (r.filter (fun x => decide (x ≤ -v))).sum
      (((r.filter (fun x => decide (x ≤ -v))).length : ℕ) : ℝ) with _ | m
  · rw [hfd] at hc
    exact absurd hc (by simp)
  · rw [hfd, Option.map_some', Option.some.injEq] at hc
    have hlen : (((r.filter (fun x => decide (x ≤ -v))).length : ℕ) : ℝ) ≠ 0 := by
      intro h0
      rw [fdiv_of_eq h0] at hfd
      exact Option.noConfusion hfd
    have hm : m = (r.filter (fun x => decide (x ≤ -v))).sum /
        ((r.filter (fun x => decide (x ≤ -v))).length : ℝ) := by
      rw [fdiv_of_ne hlen, Option.some.injEq] at hfd
      exact hfd.symm
    have hbound : ∀ x ∈ r.filter (fun x => decide (x ≤ -v)), x ≤ -v := by
      intro x hx
      exact of_decide_eq_true (List.mem_filter.mp hx).2
    have hsum : (r.filter (fun x => decide (x ≤ -v))).sum ≤
        (r.filter (fun x => decide (x ≤ -v))).length • (-v) :=
      List.sum_le_card_nsmul _ _ hbound
    rw [nsmul_eq_mul] at hsum
    have hlpos : (0 : ℝ) < ((r.filter (fun x => decide (x ≤ -v))).length : ℝ) :=
      lt_of_le_of_ne (Nat.cast_nonneg _) (Ne.symm hlen)
    have hdiv : (r.filter (fun x => decide (x ≤ -v))).sum /
        ((r.filter (fun x => decide (x ≤ -v))).length : ℝ) ≤ -v := by
      rw [div_le_iff₀ hlpos]
      linarith
    rw [← hc, hm]
    linarith

lemma percentile_single : percentile [0] 50 = some 0 := by
  rw [percentile, if_neg]
  · norm_num [List.insertionSort, List.orderedInsert]
  · push_neg
    refine ⟨by simp, by norm_num, by norm_num⟩

lemma var_historic_single : var_historic [0] 50 = some 0 := by
  rw [var_historic, percentile_single, Option.map_some', neg_zero]

lemma cvar_historic_single : cvar_historic [0] 50 = some 0 := by
  rw [cvar_historic, var_historic_single, Option.some_bind]
  have hfil : ([0] : List ℝ).filter (fun z => decide (z ≤ -(0 : ℝ))) = [0] := by
    simp
  rw [hfil]
  rw [fdiv_of_ne (by norm_num : ((List.length [(0 : ℝ)] : ℕ) : ℝ) ≠ 0)]
  norm_num

/-- Witness for `cvar_dominates_var` at `r = [0]`, `level = 50`. -/
theorem cvar_dominates_var_witness :
    var_historic [0] 50 = some 0 ∧ cvar_historic [0] 50 = some 0 ∧
      (0 : ℝ) ≤ 0 :=
  ⟨var_historic_single, cvar_historic_single,
    cvar_dominates_var [0] 50 0 0 var_historic_single cvar_historic_single⟩

/-- Witness for `drawdown_nonpositive` at the price series `[1, 2]`. -/
theorem drawdown_nonpositive_witness :
    (∀ d ∈ drawdowns [1, 2], d ≤ 0) ∧ get_max_drawdown [1, 2] = some 0 := by
  have hpos : ∀ x ∈ ([1, 2] : List ℝ), 0 < x := by
    intro x hx
    simp at hx
    rcases hx with rfl | rfl <;> norm_num
  obtain ⟨h1, -, h3⟩ := drawdown_nonpositive [1, 2] hpos
  refine ⟨h1, h3 (by simp) ?_⟩
  simp [List.sorted_cons]

end RiskRanger
